import Mathlib

/-!
Shallow embedding of the Precision-RAG query pipeline and ingestion run
(`backend/app/services/rag_pipeline.py`, `backend/app/services/ingestion.py`).

Modelling conventions:
* A langchain `Document` is `Doc`: `page_content` is its text, `metadata`
  an association list of string keys to string values.
* Cross-encoder scores are floats in the source; only their linear order
  matters to the pipeline, so scores are modelled as `Int`.
* The Python `dict` used for deduplication is modelled as an
  insertion-ordered association list: assignment to an existing key keeps
  the entry position and overwrites the value (CPython dict semantics);
  assignment to a fresh key appends.
* External collaborators (retrievers, cross-encoder `predict`, the chat
  model) are black boxes, passed as function parameters; loading the two
  persisted indexes can fail, modelled as `Except` values whose errors
  propagate exactly as uncaught Python exceptions do in the source.
-/

/-- A langchain Document: text plus source metadata. -/
structure Doc where
  page_content : String
  metadata : List (String × String)
deriving DecidableEq

/-- One assignment `m[k] = v` on an insertion-ordered dict: if the key is
present, the entry keeps its position and the value is overwritten;
otherwise the new entry is appended. -/
def pyDictInsert (m : List (String × Doc)) (k : String) (v : Doc) :
    List (String × Doc) :=
  if k ∈ m.map Prod.fst then
    m.map (fun p => if p.1 = k then (p.1, v) else p)
  else
    m ++ [(k, v)]

/-- The dict built by the loop `for doc in all_docs: unique_docs[doc.page_content] = doc`
in `_hybrid_search`. -/
def unique_docs_of (docs : List Doc) : List (String × Doc) :=
  docs.foldl (fun m doc => pyDictInsert m doc.page_content doc) []

/-- Embedding of `_hybrid_search` after the two retriever invocations:
`all_docs = chroma_docs + bm25_docs`, dict-based dedup by `page_content`,
result `list(unique_docs.values())`. -/
def hybrid_search (chroma_docs bm25_docs : List Doc) : List Doc :=
  (unique_docs_of (chroma_docs ++ bm25_docs)).map Prod.snd

/-- Comparator used to model `scored_docs.sort(key=lambda x: x[0], reverse=True)`:
a scored document may precede another exactly when its score is at least
as large. A stable sort with this comparator is exactly what the Python
stable sort with `reverse=True` computes. -/
def scoreGE (a b : Int × Doc) : Prop :=
  b.1 ≤ a.1

instance : DecidableRel scoreGE :=
  fun a b => inferInstanceAs (Decidable (b.1 ≤ a.1))

instance : IsTotal (Int × Doc) scoreGE :=
  ⟨fun a b => Int.le_total b.1 a.1⟩

instance : IsTrans (Int × Doc) scoreGE :=
  ⟨fun _ _ _ hab hbc => le_trans hbc hab⟩

/-- The list `pairs = [[query, doc.page_content] for doc in documents]`. -/
def rerank_pairs (query : String) (documents : List Doc) :
    List (String × String) :=
  documents.map (fun d => (query, d.page_content))

/-- The list `scored_docs = list(zip(scores, documents))` where
`scores = cross_encoder_model.predict(pairs)` (Python `zip` truncates to
the shorter input, as `List.zip` does). -/
def rerank_scored (predict : List (String × String) → List Int)
    (query : String) (documents : List Doc) : List (Int × Doc) :=
  (predict (rerank_pairs query documents)).zip documents

/-- The list after `scored_docs.sort(key=lambda x: x[0], reverse=True)`:
a stable descending sort on the score component. -/
def rerank_sorted (predict : List (String × String) → List Int)
    (query : String) (documents : List Doc) : List (Int × Doc) :=
  List.insertionSort scoreGE (rerank_scored predict query documents)

/-- Embedding of `_rerank_documents`: empty input short-circuits to `[]`
before the model is consulted; otherwise score, stable-sort descending,
and return `[doc for score, doc in scored_docs[:3]]`. -/
def rerank_documents (predict : List (String × String) → List Int)
    (query : String) (documents : List Doc) : List Doc :=
  if documents.isEmpty then []
  else ((rerank_sorted predict query documents).take 3).map Prod.snd

/-- Embedding of `_format_docs`: `"\n\n".join(doc.page_content for doc in docs)`. -/
def format_docs (docs : List Doc) : String :=
  String.intercalate "\n\n" (docs.map Doc.page_content)

/-- The prompt template string (module-level `template` in the source). -/
def template : String :=
  "\nYou are an assistant for question-answering tasks. \nUse the following pieces of retrieved context to answer the question. \nIf you don\x27t know the answer, just say that you don\x27t know. \nYou must answer *only* based on the context provided.\n\nContext:\n{context}\n\nQuestion:\n{question}\n\nAnswer:\n"

/-- Filling the two slots of `RAG_PROMPT` with a context and a question. -/
def rag_prompt (context question : String) : String :=
  (template.replace "{context}" context).replace "{question}" question

/-- Embedding of the query-time dataflow of `run_rag_pipeline`: loading
either persisted index may fail (`Except.error`), and such a failure
propagates unhandled, exactly as the uncaught exception does in the
source (no fallback path exists); on success the chain
hybrid search → rerank → format → prompt → llm runs on the query. -/
def run_rag_pipeline
    (load_vectorstore load_bm25 : Except String (String → List Doc))
    (predict : List (String × String) → List Int)
    (llm : String → String) (query : String) : Except String String :=
  match load_vectorstore with
  | Except.error e => Except.error e
  | Except.ok chroma_retriever =>
    match load_bm25 with
    | Except.error e => Except.error e
    | Except.ok bm25_retriever =>
      let documents := hybrid_search (chroma_retriever query) (bm25_retriever query)
      let reranked := rerank_documents predict query documents
      let context := format_docs reranked
      Except.ok (llm (rag_prompt context query))

/-- State of the two persisted indexes: the chunks held by the vector
store directory, and the serialized BM25 retriever file (`none` when the
pickle file does not exist). -/
structure IndexState where
  vectorstore_chunks : List Doc
  bm25_file : Option (List Doc)
deriving DecidableEq

/-- Embedding of `clear_indexes`: deletes the vector store directory and
the BM25 pickle, then recreates the empty directories. -/
def clear_indexes (_st : IndexState) : IndexState :=
  { vectorstore_chunks := [], bm25_file := none }

/-- Embedding of `create_vectorstore`: persists the chunks to the vector store. -/
def create_vectorstore (chunks : List Doc) (st : IndexState) : IndexState :=
  { st with vectorstore_chunks := chunks }

/-- Embedding of `create_bm25_index`: serializes a BM25 retriever built
from the chunks to the pickle file. -/
def create_bm25_index (chunks : List Doc) (st : IndexState) : IndexState :=
  { st with bm25_file := some chunks }

/-- How a `run_ingestion` call returned (all four are normal returns in
the source; none raises). -/
inductive IngestOutcome where
  | emptyDocs
  | emptyChunks
  | embedInitFailed
  | completed
deriving DecidableEq

/-- Embedding of `run_ingestion`: clear both indexes first, then load
(the loaded documents are an input, the corpus walk being filesystem
interaction), split (the library splitter is a black-box parameter),
and either return early on empty documents or chunks, or build and
persist both indexes. -/
def run_ingestion (documents : List Doc) (split : List Doc → List Doc)
    (embed_init : Except String Unit) (st : IndexState) :
    IndexState × IngestOutcome :=
  let st1 := clear_indexes st
  if documents.isEmpty then (st1, IngestOutcome.emptyDocs)
  else
    let chunks := split documents
    if chunks.isEmpty then (st1, IngestOutcome.emptyChunks)
    else
      match embed_init with
      | Except.error _ => (st1, IngestOutcome.embedInitFailed)
      | Except.ok _ =>
        (create_bm25_index chunks (create_vectorstore chunks st1),
         IngestOutcome.completed)

/-- Modelled from the spec: first-occurrence deduplication of a key list
(the spec claims the pool keeps, for each distinct text, the first
occurrence encountered, in first-seen order). `seen` accumulates the
keys already emitted. -/
def freshKeys (seen : List String) : List String → List String
  | [] => []
  | k :: ks =>
    if k ∈ seen then freshKeys seen ks
    else k :: freshKeys (seen ++ [k]) ks

/-- Modelled from the spec: the distinct texts of a list in first-seen order. -/
def firstOccurrenceKeys (ks : List String) : List String :=
  freshKeys [] ks

/-! ### Concrete documents used by witnesses and counterexamples -/

/-- Sample document with text `"t"` coming from file a. -/
def docTA : Doc := ⟨"t", [("source", "a.txt")]⟩

/-- Sample document with the same text `"t"` but coming from file b. -/
def docTB : Doc := ⟨"t", [("source", "b.txt")]⟩

/-- Sample document with text `"x"`. -/
def docX : Doc := ⟨"x", []⟩

/-- Sample document with text `"a"`. -/
def docA : Doc := ⟨"a", []⟩

/-- Sample document with text `"b"`. -/
def docB : Doc := ⟨"b", []⟩

/-- Sample chunk with the text of the end-to-end scenario of the spec. -/
def docParis1 : Doc := ⟨"Paris is the capital of France", [("source", "doc1.txt")]⟩

/-- Second sample chunk of the end-to-end scenario of the spec. -/
def docParis2 : Doc := ⟨"The Eiffel Tower is in Paris", [("source", "doc2.txt")]⟩

open List

/-! ### Lemmas about the dict-based deduplication -/

/-- Keys after one dict assignment: unchanged when the key was present,
appended otherwise. -/
lemma map_fst_pyDictInsert (m : List (String × Doc)) (k : String) (v : Doc) :
    (pyDictInsert m k v).map Prod.fst =
      if k ∈ m.map Prod.fst then m.map Prod.fst else m.map Prod.fst ++ [k] := by
  unfold pyDictInsert
  split
  · rw [List.map_map]
    refine List.map_congr_left (fun p _ => ?_)
    by_cases h : p.1 = k <;> simp [h]
  · simp

/-- An entry of the dict after an assignment is either the assigned pair
or an untouched entry whose key differs from the assigned key. -/
lemma mem_pyDictInsert {m : List (String × Doc)} {k : String} {v : Doc}
    {p : String × Doc} (hp : p ∈ pyDictInsert m k v) :
    (p.1 = k ∧ p.2 = v) ∨ (p ∈ m ∧ p.1 ≠ k) := by
  unfold pyDictInsert at hp
  by_cases hk : k ∈ m.map Prod.fst
  · rw [if_pos hk] at hp
    obtain ⟨q, hq, him⟩ := List.mem_map.mp hp
    by_cases hq1 : q.1 = k
    · left
      rw [if_pos hq1] at him
      refine ⟨?_, ?_⟩ <;> rw [← him]
      exact hq1
    · right
      rw [if_neg hq1] at him
      subst him
      exact ⟨hq, hq1⟩
  · rw [if_neg hk] at hp
    rcases List.mem_append.mp hp with h | h
    · right
      refine ⟨h, fun hcontra => hk ?_⟩
      exact hcontra ▸ List.mem_map_of_mem Prod.fst h
    · left
      have := List.mem_singleton.mp h
      subst this
      exact ⟨rfl, rfl⟩

/-- Value invariant of the deduplication loop: every entry of the final
dict has its key equal to the text of its value, and its value is the
last document in the processed list carrying that text (or, if no
processed document carries it, an untouched entry of the initial dict). -/
lemma foldl_pyDictInsert_values (docs : List Doc) :
    ∀ (m : List (String × Doc)), (∀ p ∈ m, p.2.page_content = p.1) →
      ∀ p ∈ docs.foldl (fun m doc => pyDictInsert m doc.page_content doc) m,
        p.2.page_content = p.1 ∧
          ((docs.filter (fun d => d.page_content = p.1)).getLast? = some p.2 ∨
            ((docs.filter (fun d => d.page_content = p.1)) = [] ∧ p ∈ m)) := by
  induction docs with
  | nil =>
    intro m hm p hp
    exact ⟨hm p hp, Or.inr ⟨rfl, hp⟩⟩
  | cons d rest ih =>
    intro m hm p hp
    rw [List.foldl_cons] at hp
    have hm2 : ∀ q ∈ pyDictInsert m d.page_content d, q.2.page_content = q.1 := by
      intro q hq
      rcases mem_pyDictInsert hq with ⟨h1, h2⟩ | ⟨h1, _⟩
      · rw [h2, h1]
      · exact hm q h1
    obtain ⟨hpc, hval⟩ := ih (pyDictInsert m d.page_content d) hm2 p hp
    refine ⟨hpc, ?_⟩
    rcases hval with hlast | ⟨hnil, hmem⟩
    · left
      have hne : rest.filter (fun d => d.page_content = p.1) ≠ [] := by
        intro hz
        rw [hz] at hlast
        exact Option.noConfusion hlast
      rw [List.filter_cons]
      split
      · rw [show d :: rest.filter (fun x => x.page_content = p.1) =
            [d] ++ rest.filter (fun x => x.page_content = p.1) from rfl,
          List.getLast?_append_of_ne_nil [d] hne]
        exact hlast
      · exact hlast
    · rcases mem_pyDictInsert hmem with ⟨h1, h2⟩ | ⟨h1, h2⟩
      · left
        rw [List.filter_cons, if_pos (by simp [h1, hpc, h2]), hnil]
        simp [h2]
      · right
        refine ⟨?_, h1⟩
        rw [List.filter_cons, if_neg (by simp; intro hcontra; exact h2 (by rw [hcontra])), hnil]

/-- Key invariant of the deduplication loop: the final key list is the
initial key list followed by the first occurrences of the fresh texts. -/
lemma foldl_pyDictInsert_keys (docs : List Doc) :
    ∀ (m : List (String × Doc)),
      (docs.foldl (fun m doc => pyDictInsert m doc.page_content doc) m).map Prod.fst =
        m.map Prod.fst ++ freshKeys (m.map Prod.fst) (docs.map Doc.page_content) := by
  induction docs with
  | nil => intro m; simp [freshKeys]
  | cons d rest ih =>
    intro m
    rw [List.foldl_cons, ih, map_fst_pyDictInsert, List.map_cons]
    by_cases hk : d.page_content ∈ m.map Prod.fst
    · rw [if_pos hk]
      rw [freshKeys, if_pos hk]
    · rw [if_neg hk]
      rw [freshKeys, if_neg hk, List.append_assoc]
      rfl

/-- Membership in `freshKeys`: exactly the input keys not already seen. -/
lemma mem_freshKeys (x : String) :
    ∀ (ks seen : List String), x ∈ freshKeys seen ks ↔ x ∈ ks ∧ x ∉ seen := by
  intro ks
  induction ks with
  | nil => intro seen; simp [freshKeys]
  | cons k rest ih =>
    intro seen
    rw [freshKeys]
    by_cases hk : k ∈ seen
    · rw [if_pos hk, ih]
      constructor
      · rintro ⟨h1, h2⟩
        exact ⟨List.mem_cons_of_mem _ h1, h2⟩
      · rintro ⟨h1, h2⟩
        rcases List.mem_cons.mp h1 with h | h
        · exact absurd (h ▸ hk) h2
        · exact ⟨h, h2⟩
    · rw [if_neg hk]
      constructor
      · intro h
        rcases List.mem_cons.mp h with h | h
        · exact ⟨h ▸ List.mem_cons_self k rest, h ▸ hk⟩
        · obtain ⟨h1, h2⟩ := (ih (seen ++ [k])).mp h
          simp at h2
          exact ⟨List.mem_cons_of_mem _ h1, h2.1⟩
      · rintro ⟨h1, h2⟩
        rcases List.mem_cons.mp h1 with h | h
        · subst h
          exact List.mem_cons_self _ _
        · by_cases hxk : x = k
          · subst hxk
            exact List.mem_cons_self _ _
          · refine List.mem_cons_of_mem _ ((ih (seen ++ [k])).mpr ⟨h, ?_⟩)
            simp [h2, hxk]

/-- The keys emitted by `freshKeys` contain no duplicates. -/
lemma nodup_freshKeys : ∀ (ks seen : List String), (freshKeys seen ks).Nodup := by
  intro ks
  induction ks with
  | nil => intro seen; simp [freshKeys]
  | cons k rest ih =>
    intro seen
    rw [freshKeys]
    by_cases hk : k ∈ seen
    · rw [if_pos hk]; exact ih seen
    · rw [if_neg hk]
      refine List.nodup_cons.mpr ⟨?_, ih (seen ++ [k])⟩
      intro hmem
      have := ((mem_freshKeys k rest (seen ++ [k])).mp hmem).2
      simp at this

/-- The pool texts are exactly the distinct texts of the concatenated
retrieval results, in first-seen order. -/
lemma hybrid_search_map_page_content (chroma_docs bm25_docs : List Doc) :
    (hybrid_search chroma_docs bm25_docs).map Doc.page_content =
      firstOccurrenceKeys ((chroma_docs ++ bm25_docs).map Doc.page_content) := by
  unfold hybrid_search unique_docs_of
  rw [List.map_map]
  have hvals := foldl_pyDictInsert_values (chroma_docs ++ bm25_docs) []
    (by intro p hp; exact absurd hp (List.not_mem_nil p))
  have : ((chroma_docs ++ bm25_docs).foldl
      (fun m doc => pyDictInsert m doc.page_content doc) []).map
        (Doc.page_content ∘ Prod.snd) =
      ((chroma_docs ++ bm25_docs).foldl
      (fun m doc => pyDictInsert m doc.page_content doc) []).map Prod.fst := by
    refine List.map_congr_left (fun p hp => ?_)
    exact (hvals p hp).1
  rw [this, foldl_pyDictInsert_keys]
  simp [firstOccurrenceKeys]

/-- Every pool document is the last document with its text in the
concatenated retrieval results. -/
lemma hybrid_search_last_occurrence (chroma_docs bm25_docs : List Doc) :
    ∀ doc ∈ hybrid_search chroma_docs bm25_docs,
      ((chroma_docs ++ bm25_docs).filter
        (fun x => x.page_content = doc.page_content)).getLast? = some doc := by
  intro doc hdoc
  unfold hybrid_search unique_docs_of at hdoc
  obtain ⟨p, hp, hsnd⟩ := List.mem_map.mp hdoc
  have hvals := foldl_pyDictInsert_values (chroma_docs ++ bm25_docs) []
    (by intro q hq; exact absurd hq (List.not_mem_nil q)) p hp
  rcases hvals.2 with hlast | ⟨_, habs⟩
  · have hkey : p.1 = doc.page_content := by rw [← hsnd, hvals.1]
    rw [hkey, hsnd] at hlast
    exact hlast
  · exact absurd habs (List.not_mem_nil p)

/-! ### Claims C1 and C2 -/

/-- C1, counterexample: the claim says that for each distinct text the
chunk kept in the pool is the first occurrence encountered in dense-first
order and that subsequent duplicates are discarded. On the code, a later
duplicate overwrites the stored chunk (dict assignment), so with a dense
chunk and a sparse chunk sharing the text `"t"` but differing in
metadata, the pool holds the sparse (last) chunk, not the dense (first)
one. -/
theorem hybrid_search_first_occurrence_cex :
    hybrid_search [docTA] [docTB] = [docTB] ∧
    hybrid_search [docTA] [docTB] ≠ [docTA] ∧
    docTA ≠ docTB := by
  decide

/-- C1, amended: the Candidate Pool returned by the hybrid search is the
deduplicated-by-exact-text union of the two result sequences in which,
for each distinct text, the pool position is that of the first occurrence
encountered in dense-first order, but the chunk stored at that position
is the last occurrence of that text (later duplicates overwrite the kept
chunk); the pool order is first-seen insertion order with dense results
before sparse ones. -/
theorem hybrid_search_pool_characterization (chroma_docs bm25_docs : List Doc) :
    (hybrid_search chroma_docs bm25_docs).map Doc.page_content =
      firstOccurrenceKeys ((chroma_docs ++ bm25_docs).map Doc.page_content) ∧
    ∀ doc ∈ hybrid_search chroma_docs bm25_docs,
      ((chroma_docs ++ bm25_docs).filter
        (fun x => x.page_content = doc.page_content)).getLast? = some doc :=
  ⟨hybrid_search_map_page_content chroma_docs bm25_docs,
   hybrid_search_last_occurrence chroma_docs bm25_docs⟩

/-- C1, witness: the amended characterization evaluated on a concrete
pair of retrieval results with a duplicated text. -/
theorem hybrid_search_pool_characterization_witness :
    (hybrid_search [docX, docTA] [docTB]).map Doc.page_content =
      firstOccurrenceKeys (([docX, docTA] ++ [docTB]).map Doc.page_content) ∧
    (([docX, docTA] ++ [docTB]).filter
      (fun x => x.page_content = docTB.page_content)).getLast? = some docTB :=
  ⟨(hybrid_search_pool_characterization [docX, docTA] [docTB]).1,
   (hybrid_search_pool_characterization [docX, docTA] [docTB]).2 docTB (by decide)⟩

/-- C2: the Candidate Pool contains no two chunks with identical text,
and every text occurring in either input sequence is the text of exactly
one pool chunk. -/
theorem hybrid_search_no_duplicate_texts (chroma_docs bm25_docs : List Doc) :
    ((hybrid_search chroma_docs bm25_docs).map Doc.page_content).Nodup ∧
    ∀ t ∈ (chroma_docs ++ bm25_docs).map Doc.page_content,
      ((hybrid_search chroma_docs bm25_docs).map Doc.page_content).count t = 1 := by
  rw [hybrid_search_map_page_content]
  refine ⟨nodup_freshKeys _ _, fun t ht => ?_⟩
  refine List.count_eq_one_of_mem (nodup_freshKeys _ _) ?_
  exact (mem_freshKeys t _ []).mpr ⟨ht, List.not_mem_nil t⟩

/-- C2, witness: the no-duplicate-texts property evaluated on concrete
inputs in which the text `"t"` occurs in both retrieval result lists. -/
theorem hybrid_search_no_duplicate_texts_witness :
    ((hybrid_search [docX, docTA] [docTB]).map Doc.page_content).Nodup ∧
    ((hybrid_search [docX, docTA] [docTB]).map Doc.page_content).count
      docTA.page_content = 1 :=
  ⟨(hybrid_search_no_duplicate_texts [docX, docTA] [docTB]).1,
   (hybrid_search_no_duplicate_texts [docX, docTA] [docTB]).2
     docTA.page_content (by decide)⟩

/-! ### Positional list lemmas used for the re-ranker -/

/-- Two elements taken at increasing positions form a two-element
sublist. -/
lemma pair_get_sublist {α : Type} (l : List α) :
    ∀ (i j : Nat) (hij : i < j) (hj : j < l.length),
      [l.get ⟨i, Nat.lt_trans hij hj⟩, l.get ⟨j, hj⟩] <+ l := by
  induction l with
  | nil =>
    intro i j hij hj
    exact absurd hj (Nat.not_lt_zero j)
  | cons x t ih =>
    intro i j hij hj
    cases j with
    | zero => exact absurd hij (Nat.not_lt_zero i)
    | succ jj =>
      cases i with
      | zero =>
        show [x, t.get ⟨jj, Nat.lt_of_succ_lt_succ hj⟩] <+ x :: t
        exact List.Sublist.cons₂ x
          (List.singleton_sublist.mpr (t.get_mem jj (Nat.lt_of_succ_lt_succ hj)))
      | succ ii =>
        exact List.Sublist.cons x
          (ih ii jj (Nat.lt_of_succ_lt_succ hij) (Nat.lt_of_succ_lt_succ hj))

/-- In a duplicate-free list, a two-element sublist means the first
element has the strictly smaller index. -/
lemma indexOf_lt_of_pair_sublist {α : Type} [DecidableEq α] {a b : α} :
    ∀ {l : List α}, [a, b] <+ l → l.Nodup → a ≠ b →
      l.indexOf a < l.indexOf b := by
  intro l
  induction l with
  | nil =>
    intro h
    exact absurd (List.sublist_nil.mp h) (by simp)
  | cons x t ih =>
    intro h hnd hab
    obtain ⟨hxt, hndt⟩ := List.nodup_cons.mp hnd
    cases h with
    | cons _ h =>
      have hat : a ∈ t := h.subset (by simp)
      have hbt : b ∈ t := h.subset (by simp)
      have hxa : x ≠ a := fun he => hxt (he ▸ hat)
      have hxb : x ≠ b := fun he => hxt (he ▸ hbt)
      rw [List.indexOf_cons_ne t hxa, List.indexOf_cons_ne t hxb]
      exact Nat.succ_lt_succ (ih h hndt hab)
    | cons₂ _ h =>
      rw [List.indexOf_cons_self, List.indexOf_cons_ne t hab]
      exact Nat.succ_pos _


/-- The index of an element inside a `take`-prefix agrees with its index
in the whole list. -/
lemma indexOf_take_eq {α : Type} [DecidableEq α] {x : α} :
    ∀ (l : List α) (n : Nat), x ∈ l.take n →
      (l.take n).indexOf x = l.indexOf x := by
  intro l
  induction l with
  | nil => intro n h; simp at h
  | cons y t ih =>
    intro n h
    cases n with
    | zero => simp at h
    | succ m =>
      rw [List.take_succ_cons] at h ⊢
      by_cases hxy : y = x
      · rw [List.indexOf_cons_eq _ hxy, List.indexOf_cons_eq _ hxy]
      · have hx : x ∈ t.take m :=
          (List.mem_cons.mp h).resolve_left (fun he => hxy he.symm)
        rw [List.indexOf_cons_ne _ hxy, List.indexOf_cons_ne _ hxy, ih m hx]

/-! ### Lemmas about the re-ranker -/

/-- On a non-empty pool the re-ranker is the 3-prefix of the documents of
the stable-sorted scored list. -/
lemma rerank_documents_eq_of_ne_nil (predict : List (String × String) → List Int)
    (query : String) {documents : List Doc} (h : documents ≠ []) :
    rerank_documents predict query documents =
      ((rerank_sorted predict query documents).map Prod.snd).take 3 := by
  unfold rerank_documents
  rw [if_neg (by simpa using h), List.map_take]

/-- With one score per document, the document components of the scored
list are the documents themselves. -/
lemma map_snd_rerank_scored (predict : List (String × String) → List Int)
    (query : String) (documents : List Doc)
    (hlen : (predict (rerank_pairs query documents)).length = documents.length) :
    (rerank_scored predict query documents).map Prod.snd = documents :=
  List.map_snd_zip _ _ (le_of_eq hlen.symm)

/-- With one score per document, the documents of the sorted scored list
are a permutation of the pool. -/
lemma map_snd_rerank_sorted_perm (predict : List (String × String) → List Int)
    (query : String) (documents : List Doc)
    (hlen : (predict (rerank_pairs query documents)).length = documents.length) :
    (rerank_sorted predict query documents).map Prod.snd ~ documents := by
  have h1 : rerank_sorted predict query documents ~
      rerank_scored predict query documents :=
    List.perm_insertionSort scoreGE _
  have h2 := h1.map Prod.snd
  rwa [map_snd_rerank_scored predict query documents hlen] at h2

/-- Tie stability of the re-ranker: two pool documents with equal scores
keep their pool order inside the Context Window. -/
lemma rerank_tie_helper (predict : List (String × String) → List Int)
    (query : String) (documents : List Doc) (i j : Nat)
    (hnd : (documents.map Doc.page_content).Nodup)
    (hlen : (predict (rerank_pairs query documents)).length = documents.length)
    (hij : i < j) (hj : j < documents.length)
    (heq : (predict (rerank_pairs query documents))[i]? =
      (predict (rerank_pairs query documents))[j]?)
    (hiw : documents.get ⟨i, Nat.lt_trans hij hj⟩ ∈
      rerank_documents predict query documents)
    (hjw : documents.get ⟨j, hj⟩ ∈ rerank_documents predict query documents) :
    (rerank_documents predict query documents).indexOf
        (documents.get ⟨i, Nat.lt_trans hij hj⟩) <
      (rerank_documents predict query documents).indexOf
        (documents.get ⟨j, hj⟩) := by
  have hne : documents ≠ [] := by
    intro h
    rw [h] at hj
    exact absurd hj (Nat.not_lt_zero j)
  have hdnd : documents.Nodup := List.Nodup.of_map Doc.page_content hnd
  have hZlen : (rerank_scored predict query documents).length = documents.length := by
    unfold rerank_scored
    rw [List.length_zip, hlen, Nat.min_self]
  have hiZ : i < (rerank_scored predict query documents).length := by
    rw [hZlen]; omega
  have hjZ : j < (rerank_scored predict query documents).length := by
    rw [hZlen]
    exact hj
  have hiS : i < (predict (rerank_pairs query documents)).length := by omega
  have hjS : j < (predict (rerank_pairs query documents)).length := by omega
  have hsub : [(rerank_scored predict query documents).get ⟨i, hiZ⟩,
      (rerank_scored predict query documents).get ⟨j, hjZ⟩] <+
      rerank_scored predict query documents :=
    pair_get_sublist _ i j hij hjZ
  have hzi : (rerank_scored predict query documents).get ⟨i, hiZ⟩ =
      ((predict (rerank_pairs query documents)).get ⟨i, hiS⟩,
        documents.get ⟨i, Nat.lt_trans hij hj⟩) := by
    unfold rerank_scored at hiZ ⊢
    rw [List.get_eq_getElem, List.getElem_zip]
    simp
  have hzj : (rerank_scored predict query documents).get ⟨j, hjZ⟩ =
      ((predict (rerank_pairs query documents)).get ⟨j, hjS⟩,
        documents.get ⟨j, hj⟩) := by
    unfold rerank_scored at hjZ ⊢
    rw [List.get_eq_getElem, List.getElem_zip]
    simp
  have hscoreeq : (predict (rerank_pairs query documents)).get ⟨i, hiS⟩ =
      (predict (rerank_pairs query documents)).get ⟨j, hjS⟩ := by
    rw [List.getElem?_eq_getElem hiS, List.getElem?_eq_getElem hjS] at heq
    simpa using heq
  have hge : scoreGE ((rerank_scored predict query documents).get ⟨i, hiZ⟩)
      ((rerank_scored predict query documents).get ⟨j, hjZ⟩) := by
    unfold scoreGE
    rw [hzi, hzj]
    exact le_of_eq hscoreeq.symm
  have hpairS : [(rerank_scored predict query documents).get ⟨i, hiZ⟩,
      (rerank_scored predict query documents).get ⟨j, hjZ⟩] <+
      rerank_sorted predict query documents :=
    List.pair_sublist_insertionSort hge hsub
  have hpairM : [documents.get ⟨i, Nat.lt_trans hij hj⟩, documents.get ⟨j, hj⟩] <+
      (rerank_sorted predict query documents).map Prod.snd := by
    have h2 := hpairS.map Prod.snd
    rw [hzi, hzj] at h2
    simpa using h2
  have hMnd : ((rerank_sorted predict query documents).map Prod.snd).Nodup :=
    (map_snd_rerank_sorted_perm predict query documents hlen).nodup_iff.mpr hdnd
  have hdij : documents.get ⟨i, Nat.lt_trans hij hj⟩ ≠ documents.get ⟨j, hj⟩ := by
    intro hcontra
    have := (List.Nodup.get_inj_iff hdnd).mp hcontra
    have hij2 : i = j := congrArg Fin.val this
    omega
  have hMlt := indexOf_lt_of_pair_sublist hpairM hMnd hdij
  rw [rerank_documents_eq_of_ne_nil predict query hne] at hiw hjw ⊢
  rw [indexOf_take_eq _ 3 hiw, indexOf_take_eq _ 3 hjw]
  exact hMlt

/-! ### Claims C3 to C6 -/

/-- C3: if the cross-encoder assigns equal scores to two chunks of a
Candidate Pool with pairwise-distinct texts, their relative order in the
Context Window equals their relative order in the pool (the descending
sort is stable). -/
theorem rerank_equal_scores_stable (predict : List (String × String) → List Int)
    (query : String) (documents : List Doc) (i j : Nat)
    (hnd : (documents.map Doc.page_content).Nodup)
    (hlen : (predict (rerank_pairs query documents)).length = documents.length)
    (hij : i < j) (hj : j < documents.length)
    (heq : (predict (rerank_pairs query documents))[i]? =
      (predict (rerank_pairs query documents))[j]?)
    (hiw : documents.get ⟨i, Nat.lt_trans hij hj⟩ ∈
      rerank_documents predict query documents)
    (hjw : documents.get ⟨j, hj⟩ ∈ rerank_documents predict query documents) :
    (rerank_documents predict query documents).indexOf
        (documents.get ⟨i, Nat.lt_trans hij hj⟩) <
      (rerank_documents predict query documents).indexOf
        (documents.get ⟨j, hj⟩) :=
  rerank_tie_helper predict query documents i j hnd hlen hij hj heq hiw hjw

/-- C3, witness: two documents with equal scores keep pool order in the
window. -/
theorem rerank_equal_scores_stable_witness :
    (rerank_documents (fun _ => [5, 5]) "q" [docA, docB]).indexOf
        ([docA, docB].get ⟨0, by decide⟩) <
      (rerank_documents (fun _ => [5, 5]) "q" [docA, docB]).indexOf
        ([docA, docB].get ⟨1, by decide⟩) :=
  rerank_equal_scores_stable (fun _ => [5, 5]) "q" [docA, docB] 0 1
    (by decide) (by decide) (by decide) (by decide) (by decide)
    (by decide) (by decide)

/-- With one score per chunk the window is the 3-prefix of the sorted
documents and has length `min 3 (pool length)`. -/
lemma rerank_take_three (predict : List (String × String) → List Int)
    (query : String) (documents : List Doc)
    (hlen : (predict (rerank_pairs query documents)).length = documents.length) :
    rerank_documents predict query documents =
      ((rerank_sorted predict query documents).map Prod.snd).take 3 ∧
    (rerank_documents predict query documents).length = min 3 documents.length := by
  by_cases hne : documents = []
  · subst hne
    refine ⟨?_, ?_⟩
    · unfold rerank_documents rerank_sorted rerank_scored
      simp
    · unfold rerank_documents
      simp
  · rw [rerank_documents_eq_of_ne_nil predict query hne]
    refine ⟨rfl, ?_⟩
    rw [List.length_take, List.length_map]
    unfold rerank_sorted
    rw [List.length_insertionSort]
    unfold rerank_scored
    rw [List.length_zip, hlen, Nat.min_self]

/-- C4: with one score per chunk, the Context Window is the first K=3
chunks of the stable-sorted pool, and its length is exactly
`min 3 (pool length)` (in particular at most that bound). -/
theorem rerank_bounded_output (predict : List (String × String) → List Int)
    (query : String) (documents : List Doc)
    (hlen : (predict (rerank_pairs query documents)).length = documents.length) :
    rerank_documents predict query documents =
      ((rerank_sorted predict query documents).map Prod.snd).take 3 ∧
    (rerank_documents predict query documents).length = min 3 documents.length :=
  rerank_take_three predict query documents hlen

/-- C4, witness: a two-document pool yields a window of length
`min 3 2 = 2`. -/
theorem rerank_bounded_output_witness :
    (rerank_documents (fun _ => [7, 3]) "q" [docA, docB]).length =
      min 3 [docA, docB].length :=
  (rerank_bounded_output (fun _ => [7, 3]) "q" [docA, docB] (by decide)).2

/-- C5: reranking an empty Candidate Pool yields an empty Context Window,
and the result does not depend on the scoring model at all (the scoring
model is not invoked: the empty case short-circuits before `predict`). -/
theorem rerank_empty_pool (predict1 predict2 : List (String × String) → List Int)
    (query : String) :
    rerank_documents predict1 query [] = [] ∧
    rerank_documents predict1 query [] = rerank_documents predict2 query [] :=
  ⟨rfl, rfl⟩

/-- C6, counterexample: the claim says the Context Window is a
subsequence of the Candidate Pool, its elements appearing in the window
in the same relative order they have in the pool. When scores force a
reorder, the window is not a sublist of the pool: here the pool is
`[docA, docB]` and the window `[docB, docA]`. -/
theorem rerank_subsequence_cex :
    rerank_documents (fun ps => ps.map (fun pr => if pr.2 = "b" then 1 else 0))
        "q" [docA, docB] = [docB, docA] ∧
    ¬ (rerank_documents (fun ps => ps.map (fun pr => if pr.2 = "b" then 1 else 0))
        "q" [docA, docB] <+ [docA, docB]) := by
  decide

/-- C6, amended: the Context Window draws its elements from the
Candidate Pool without repetition (it is a sub-multiset of the pool, not
necessarily order-preserving), is truncated to K=3 or fewer, is sorted by
descending cross-encoder score, equals the 3-prefix of the stable
descending sort of the scored pool, and ties keep first-seen pool
order. -/
theorem rerank_context_window_characterization
    (predict : List (String × String) → List Int)
    (query : String) (documents : List Doc)
    (hnd : (documents.map Doc.page_content).Nodup)
    (hlen : (predict (rerank_pairs query documents)).length = documents.length) :
    rerank_documents predict query documents <+~ documents ∧
    (rerank_documents predict query documents).length ≤ min 3 documents.length ∧
    ((rerank_sorted predict query documents).map Prod.fst).Pairwise
      (fun a b => b ≤ a) ∧
    rerank_documents predict query documents =
      ((rerank_sorted predict query documents).map Prod.snd).take 3 ∧
    (∀ i j : Nat, ∀ hij : i < j, ∀ hj : j < documents.length,
      (predict (rerank_pairs query documents))[i]? =
        (predict (rerank_pairs query documents))[j]? →
      documents.get ⟨i, Nat.lt_trans hij hj⟩ ∈
        rerank_documents predict query documents →
      documents.get ⟨j, hj⟩ ∈ rerank_documents predict query documents →
      (rerank_documents predict query documents).indexOf
          (documents.get ⟨i, Nat.lt_trans hij hj⟩) <
        (rerank_documents predict query documents).indexOf
          (documents.get ⟨j, hj⟩)) := by
  obtain ⟨heq3, hlen3⟩ := rerank_take_three predict query documents hlen
  refine ⟨?_, le_of_eq hlen3, ?_, heq3, ?_⟩
  · rw [heq3]
    exact ((List.take_sublist 3 _).subperm).trans
      (map_snd_rerank_sorted_perm predict query documents hlen).subperm
  · have hs : (rerank_sorted predict query documents).Pairwise scoreGE :=
      List.sorted_insertionSort scoreGE _
    rw [List.pairwise_map]
    exact hs.imp (fun h => h)
  · intro i j hij hj heq hiw hjw
    exact rerank_tie_helper predict query documents i j hnd hlen hij hj heq hiw hjw

/-- C6, witness: the amended characterization evaluated on a concrete
two-document pool with distinct scores. -/
theorem rerank_context_window_characterization_witness :
    rerank_documents (fun _ => [1, 0]) "q" [docA, docB] <+~ [docA, docB] ∧
    (rerank_documents (fun _ => [1, 0]) "q" [docA, docB]).length ≤
      min 3 [docA, docB].length :=
  ⟨(rerank_context_window_characterization (fun _ => [1, 0]) "q" [docA, docB]
      (by decide) (by decide)).1,
   (rerank_context_window_characterization (fun _ => [1, 0]) "q" [docA, docB]
      (by decide) (by decide)).2.1⟩

/-! ### Lemmas about string joining -/

/-- Unfolding of the accumulator loop of `String.intercalate`. -/
lemma intercalate_go_cons (s : String) :
    ∀ (l : List String) (a acc : String),
      String.intercalate.go acc s (a :: l) =
        acc ++ s ++ String.intercalate.go a s l := by
  intro l
  induction l with
  | nil => intro a acc; rfl
  | cons b bs ih =>
    intro a acc
    show String.intercalate.go (acc ++ s ++ a) s (b :: bs) = _
    rw [ih b (acc ++ s ++ a), ih b a]
    simp [String.append_assoc]

/-- Joining at least two strings emits the separator after the first. -/
lemma intercalate_cons_cons (s a b : String) (l : List String) :
    String.intercalate s (a :: b :: l) =
      a ++ s ++ String.intercalate s (b :: l) := by
  show String.intercalate.go a s (b :: l) = _
  rw [intercalate_go_cons s l b a]
  rfl

/-! ### Claims C7 to C10 -/

/-- C7: if loading either underlying index fails (for example because it
was never built), the pipeline call fails with that error and no
degraded single-source retrieval is attempted: the result is an error,
never an answer. -/
theorem run_rag_pipeline_index_unavailable
    (load_vectorstore load_bm25 : Except String (String → List Doc))
    (predict : List (String × String) → List Int)
    (llm : String → String) (query : String)
    (h : (∃ e, load_vectorstore = Except.error e) ∨
      (∃ e, load_bm25 = Except.error e)) :
    ∃ e, run_rag_pipeline load_vectorstore load_bm25 predict llm query =
      Except.error e := by
  unfold run_rag_pipeline
  rcases h with ⟨e, he⟩ | ⟨e, he⟩
  · rw [he]
    exact ⟨e, rfl⟩
  · cases load_vectorstore with
    | error e2 => exact ⟨e2, rfl⟩
    | ok r =>
      rw [he]
      exact ⟨e, rfl⟩

/-- C7, witness: a missing vector store makes the pipeline call fail. -/
theorem run_rag_pipeline_index_unavailable_witness :
    ∃ e, run_rag_pipeline (Except.error "vectorstore missing")
      (Except.ok (fun _ => [])) (fun _ => []) (fun s => s) "q" =
        Except.error e :=
  run_rag_pipeline_index_unavailable (Except.error "vectorstore missing")
    (Except.ok (fun _ => [])) (fun _ => []) (fun s => s) "q"
    (Or.inl ⟨"vectorstore missing", rfl⟩)

/-- C8: the Context Assembler returns exactly the concatenation of the
chunk texts in window order separated by a blank line (two newlines); in
particular the two-chunk Paris example of the spec assembles as
claimed. -/
theorem format_docs_blank_line_join :
    format_docs [] = "" ∧
    (∀ d : Doc, format_docs [d] = d.page_content) ∧
    (∀ (d : Doc) (rest : List Doc), rest ≠ [] →
      format_docs (d :: rest) = d.page_content ++ "\n\n" ++ format_docs rest) ∧
    format_docs [docParis1, docParis2] =
      "Paris is the capital of France\n\nThe Eiffel Tower is in Paris" := by
  refine ⟨rfl, fun d => rfl, ?_, by decide⟩
  intro d rest hne
  cases rest with
  | nil => exact absurd rfl hne
  | cons r rs =>
    unfold format_docs
    rw [List.map_cons, List.map_cons, intercalate_cons_cons]

/-- C8, witness: the separator law evaluated on the two Paris chunks. -/
theorem format_docs_blank_line_join_witness :
    format_docs (docParis1 :: [docParis2]) =
      docParis1.page_content ++ "\n\n" ++ format_docs [docParis2] :=
  format_docs_blank_line_join.2.2.1 docParis1 [docParis2] (by decide)

/-- C9: the ingestion run clears both indexes first, and an empty corpus
or an empty chunk list terminates the run early, without an error,
leaving both indexes cleared and unpopulated. -/
theorem run_ingestion_empty_clears (documents : List Doc)
    (split : List Doc → List Doc) (embed_init : Except String Unit)
    (st : IndexState)
    (h : documents = [] ∨ split documents = []) :
    (run_ingestion documents split embed_init st).1 =
      { vectorstore_chunks := [], bm25_file := none } ∧
    ((run_ingestion documents split embed_init st).2 = IngestOutcome.emptyDocs ∨
      (run_ingestion documents split embed_init st).2 = IngestOutcome.emptyChunks) := by
  rcases h with h | h
  · subst h
    exact ⟨rfl, Or.inl rfl⟩
  · by_cases hd : documents = []
    · subst hd
      exact ⟨rfl, Or.inl rfl⟩
    · unfold run_ingestion
      rw [if_neg (by simpa using hd), if_pos (by simpa using h)]
      exact ⟨rfl, Or.inr rfl⟩

/-- C9, witness: ingesting an empty corpus over previously populated
indexes leaves them cleared and reports the empty-documents outcome. -/
theorem run_ingestion_empty_clears_witness :
    (run_ingestion [] (fun c => c) (Except.ok ())
      { vectorstore_chunks := [docA], bm25_file := some [docA] }).1 =
        { vectorstore_chunks := [], bm25_file := none } ∧
    ((run_ingestion [] (fun c => c) (Except.ok ())
      { vectorstore_chunks := [docA], bm25_file := some [docA] }).2 =
        IngestOutcome.emptyDocs ∨
      (run_ingestion [] (fun c => c) (Except.ok ())
        { vectorstore_chunks := [docA], bm25_file := some [docA] }).2 =
        IngestOutcome.emptyChunks) :=
  run_ingestion_empty_clears [] (fun c => c) (Except.ok ())
    { vectorstore_chunks := [docA], bm25_file := some [docA] } (Or.inl rfl)

/-- C10: an empty Candidate Pool assembles to the empty string, and the
pipeline still fills the prompt template with an empty context slot and
invokes the chat backend, instead of short-circuiting to an empty
answer. -/
theorem run_rag_pipeline_empty_pool_invokes_llm
    (chroma_retriever bm25_retriever : String → List Doc)
    (predict : List (String × String) → List Int)
    (llm : String → String) (query : String)
    (h : hybrid_search (chroma_retriever query) (bm25_retriever query) = []) :
    format_docs [] = "" ∧
    run_rag_pipeline (Except.ok chroma_retriever) (Except.ok bm25_retriever)
        predict llm query = Except.ok (llm (rag_prompt "" query)) := by
  refine ⟨rfl, ?_⟩
  show Except.ok (llm (rag_prompt (format_docs (rerank_documents predict query
      (hybrid_search (chroma_retriever query) (bm25_retriever query)))) query)) =
    Except.ok (llm (rag_prompt "" query))
  rw [h]
  rfl

/-- C10, witness: with both retrievers returning nothing, the backend is
invoked on the prompt whose context slot is empty. -/
theorem run_rag_pipeline_empty_pool_invokes_llm_witness :
    format_docs [] = "" ∧
    run_rag_pipeline (Except.ok (fun _ => [])) (Except.ok (fun _ => []))
        (fun _ => []) (fun s => s) "q" =
      Except.ok ((fun s : String => s) (rag_prompt "" "q")) :=
  run_rag_pipeline_empty_pool_invokes_llm (fun _ => []) (fun _ => [])
    (fun _ => []) (fun s => s) "q" (by decide)

